import Mathlib

/-!
# Verification of the Color Craze game core (src/ColorCraze.ino)

Shallow embedding of the game's logic: the color classifier (`getColor`),
the target generator (`getCorrectSet`), the guess-collection loop
(`displayNextCard` / `readAndDisplayCards`), the scorer
(`removeWrongGuesses`), the level mapping at the end of `startScreen`,
and the attempt loop of `game`.  Display calls (drawing cards, text) are
pure I/O and are dropped; the sensor is modelled as a scripted list of
classified readings; the C `rand` source is modelled by the single value
it returns (and, where the claim is about seeding, by an explicit
state-to-value function).
-/

/-- The color enumeration of the sketch: `enum Color {none, red, green, blue}`,
so numerically none = 0, red = 1, green = 2, blue = 3. -/
inductive Color where
  | none
  | red
  | green
  | blue
deriving DecidableEq, Repr

/-- The C cast `(enum Color)(digit)` from the integer digit values the
generator produces (always 1, 2 or 3) to the enumeration. -/
def colorOfNat : Nat → Color
  | 0 => Color.none
  | 1 => Color.red
  | 2 => Color.green
  | 3 => Color.blue
  | _ + 4 => Color.none

/-- `getColor` (lines 62-83): classify one raw sensor sample.  The channels
are the `uint16_t` values `r`, `g`, `b`, `clearVal`; in C they are promoted
to `int` before comparison, so plain naturals model them exactly. -/
def getColor (r g b clearVal : Nat) : Color :=
  if clearVal > 500 then
    if r > g + b then Color.red
    else if b > g ∧ b > r then Color.blue
    else if g > r ∧ g > b then Color.green
    else Color.none
  else Color.none

/-- The classifier as the spec (§4.1) words it, for comparison with
`getColor`: below a fixed `threshold` on the clear channel return no
symbol, otherwise run the dominance cascade red / blue / green. -/
def classifySpec (threshold r g b clearVal : Nat) : Color :=
  if clearVal < threshold then Color.none
  else if r > g + b then Color.red
  else if b > g ∧ b > r then Color.blue
  else if g > r ∧ g > b then Color.green
  else Color.none

/-- The `while (index < numSlots)` loop of `getCorrectSet` (lines 179-201),
counted down by the remaining number of slots.  `digit` is the C `int`
digit, `prev` the C `int prev` (initially -1, hence `Int`).  Note the
source divides the accumulator by `numSlots` (`num /= numSlots`), which is
the first argument `d` here, not by the base 3. -/
def getCorrectSetLoop (d : Nat) (num : Nat) (prev : Int) : Nat → List Nat
  | 0 => []
  | index + 1 =>
    let digit0 : Nat := num % 3 + 1
    let digit : Nat :=
      if (digit0 : Int) = prev then
        if digit0 ≠ 3 then digit0 + 1 else 1
      else digit0
    digit :: getCorrectSetLoop d (num / d) (digit : Int) index

/-- `getCorrectSet` (lines 162-202) as a function of the value returned by
`rand()` and of `numSlots`: `num = rand() % numCombos` with
`numCombos = 3^numSlots`, then the digit loop, storing each digit cast to
the enumeration. -/
def getCorrectSet (randVal numSlots : Nat) : List Color :=
  (getCorrectSetLoop numSlots (randVal % 3 ^ numSlots) (-1) numSlots).map colorOfNat

/-- Modelled from the spec (§4.2), for comparison with `getCorrectSet`:
decompose the drawn integer in base 3 (least-significant digit first, so
the accumulator is divided by 3 each step), map digit d to symbol d+1,
and repair a repeat by advancing one step in the cyclic order 1→2→3→1. -/
def specGenerateLoop (num : Nat) (prev : Int) : Nat → List Nat
  | 0 => []
  | r + 1 =>
    let digit0 : Nat := num % 3 + 1
    let digit : Nat :=
      if (digit0 : Int) = prev then
        if digit0 ≠ 3 then digit0 + 1 else 1
      else digit0
    digit :: specGenerateLoop (num / 3) (digit : Int) r

/-- The spec's reference generator on a drawn integer `num < 3 ^ length`. -/
def specGenerate (num length : Nat) : List Color :=
  (specGenerateLoop num (-1) length).map colorOfNat

/-- `getCorrectSet` with its surrounding pseudo-random state made explicit:
`randFn` is the C `rand` as a deterministic function of the generator
state, `prngState` is the generator state before the call, and
`seedReading` is the value `analogRead(A5)` returns.  The call
`srand((unsigned)analogRead(A5))` at line 173 overwrites the generator
state with `seedReading` before the single `rand()` call, so `prngState`
is discarded. -/
def getCorrectSetSeeded (randFn : Nat → Nat) (prngState : Nat)
    (seedReading : Nat) (numSlots : Nat) : List Color :=
  let state := seedReading
  getCorrectSet (randFn state) numSlots

/-- `displayNextCard` (lines 150-158) run against a scripted list of
classified sensor readings: starting from `color = prev`, keep reading
while the reading equals `prev` or is `none`; return the accepted color
and the unconsumed rest of the script.  An exhausted script models the
source's unbounded blocking poll and yields `Option.none`. -/
def displayNextCard (prev : Color) : List Color → Option (Color × List Color)
  | [] => Option.none
  | c :: rest =>
    if c = prev ∨ c = Color.none then displayNextCard prev rest
    else some (c, rest)

/-- The `for` loop of `readAndDisplayCards` (lines 418-421).  The source
line `Color prev = displayNextCard(prev, i, numSlots);` declares a fresh
`prev` that shadows the outer `Color prev = none`, and the `prev` passed
to `displayNextCard` is this new, still-uninitialized variable; its
indeterminate value is modelled by `junk i` for slot `i`.  The outer
`prev` is never read again, so the previous slot's accepted color is
never passed down. -/
def readCardsLoop (junk : Nat → Color) (i : Nat) :
    Nat → List Color → Option (List Color)
  | 0, _ => some []
  | r + 1, script =>
    match displayNextCard (junk i) script with
    | Option.none => Option.none
    | some (c, rest) =>
      (readCardsLoop junk (i + 1) r rest).map fun l => c :: l

/-- `readAndDisplayCards` (lines 415-422) over a scripted sensor. -/
def readAndDisplayCards (junk : Nat → Color) (numSlots : Nat)
    (script : List Color) : Option (List Color) :=
  readCardsLoop junk 0 numSlots script

/-- The level mapping at the end of `startScreen` (lines 231-240): green
returns 1, blue returns 2, red returns 3.  For `none` the C function
reaches the end without a `return` (unreachable there because the polling
loop only exits on a non-none color), modelled as `Option.none`: no
default level is produced. -/
def startScreenLevel : Color → Option Nat
  | Color.green => some 1
  | Color.blue => some 2
  | Color.red => some 3
  | Color.none => Option.none

/-- `removeWrongGuesses` (lines 328-356) without the display calls:
position-wise comparison of the guessed and correct sets, returning
`numWrongGuesses` and `guessedCorrectlySet` (the guess with every
mismatching position blanked to `none`). -/
def removeWrongGuesses : List Color → List Color → Nat × List Color
  | g :: gs, c :: cs =>
    let rest := removeWrongGuesses gs cs
    if g ≠ c then (rest.1 + 1, Color.none :: rest.2)
    else (rest.1, g :: rest.2)
  | _, _ => (0, [])

/-- `numRightGuesses = numSlots - numWrongGuesses` (line 350). -/
def numRightGuesses (numSlots : Nat) (guessedSet correctSet : List Color) : Nat :=
  numSlots - (removeWrongGuesses guessedSet correctSet).1

/-- Claim-side count of the positions where two sequences agree. -/
def agreeCount (g t : List Color) : Nat :=
  ((g.zip t).filter fun p => decide (p.1 = p.2)).length

/-- `int numSlots = level + 2` (line 432); `numGuesses` (line 433) has the
same value and the attempt loop at line 445 actually iterates `numSlots`
times. -/
def numSlots (level : Nat) : Nat := level + 2

/-- The attempt loop of `game` (lines 445-452), counted down by the
remaining attempts, with `i` the index of the next attempt.  `guessAt i`
is the guess collected on attempt `i`.  Returns the outcome (`true` = win)
together with the number of attempts consumed. -/
def gameLoop (correctSet : List Color) (guessAt : Nat → List Color)
    (i : Nat) : Nat → Bool × Nat
  | 0 => (false, i)
  | r + 1 =>
    if (removeWrongGuesses (guessAt i) correctSet).1 = 0 then (true, i + 1)
    else gameLoop correctSet guessAt (i + 1) r

/-- `game` (lines 430-453): derive `numSlots` from the level, generate the
correct set from the drawn random value, then run the attempt loop. -/
def game (level : Nat) (randVal : Nat) (guessAt : Nat → List Color) : Bool × Nat :=
  gameLoop (getCorrectSet randVal (numSlots level)) guessAt 0 (numSlots level)

/-- C1: the code divides the accumulator by `numSlots`, not by the base 3
(line 199, `num /= numSlots`), so for 4 slots and drawn value 12 the
generated target diverges from the spec's base-3 reference decomposition. -/
theorem c1_divides_by_numSlots_not_base :
    getCorrectSet 12 4 = [Color.red, Color.green, Color.red, Color.green] ∧
    specGenerate 12 4 = [Color.red, Color.green, Color.blue, Color.red] ∧
    getCorrectSet 12 4 ≠ specGenerate 12 4 := by
  refine ⟨rfl, rfl, ?_⟩
  decide

/-- C2: because `readAndDisplayCards` passes the freshly declared (and
uninitialized) shadowing `prev` to `displayNextCard` instead of the outer
accumulated one, a scripted sensor emitting red three times has red
accepted in three consecutive slots (shown here with the indeterminate
value equal to `none` in every iteration), violating the claimed
adjacent-difference invariant. -/
theorem c2_prev_shadowing_accepts_repeats :
    readAndDisplayCards (fun _ => Color.none) 3
        [Color.red, Color.red, Color.red]
      = some [Color.red, Color.red, Color.red] ∧
    ¬ List.Chain' (fun a b : Color => a ≠ b)
        [Color.red, Color.red, Color.red] :=
  ⟨rfl, fun h => (List.chain'_cons.mp h).1 rfl⟩

/-- C3: the level mapping of `startScreen`: color 2 (green) chooses level
1, color 3 (blue) chooses level 2, color 1 (red) chooses level 3, and the
`none` input produces no level at all. -/
theorem c3_level_mapping :
    startScreenLevel (colorOfNat 2) = some 1 ∧
    startScreenLevel (colorOfNat 3) = some 2 ∧
    startScreenLevel (colorOfNat 1) = some 3 ∧
    startScreenLevel Color.none = Option.none := by
  decide

/-- C7: `getColor` computes exactly the spec's classification algorithm;
the fixed clear-channel threshold is 501 (the code's `clearVal > 500`). -/
theorem c7_classifier_matches_spec (r g b clearVal : Nat) :
    getColor r g b clearVal = classifySpec 501 r g b clearVal := by
  simp only [getColor, classifySpec]
  split_ifs <;> first | rfl | omega

/-- C9: the generator reseeds from the single analog reading at the start
of every call, so the produced target depends only on that reading (and
the slot count), never on the pseudo-random state left by earlier calls:
two calls with the same reading agree for every possible prior state. -/
theorem c9_seed_determinism (randFn : Nat → Nat) (s1 s2 seedReading n : Nat) :
    getCorrectSetSeeded randFn s1 seedReading n
      = getCorrectSetSeeded randFn s2 seedReading n := rfl

/-- C10: a sample whose clear channel is at most 500 (in particular exactly
500) classifies as `none` whatever the color channels are, and a non-`none`
classification forces the clear channel strictly above 500. -/
theorem c10_threshold_boundary (r g b clearVal : Nat) :
    (clearVal ≤ 500 → getColor r g b clearVal = Color.none) ∧
    (getColor r g b clearVal ≠ Color.none → 500 < clearVal) := by
  constructor
  · intro h
    rw [getColor, if_neg (by omega)]
  · intro h
    by_contra hc
    exact h (by rw [getColor, if_neg (by omega)])

/-- Witness for C10 at the boundary: with dominant red channels, clear
exactly 500 still yields `none`, while clear 501 is above the threshold. -/
theorem c10_threshold_boundary_witness :
    getColor 600 0 0 500 = Color.none ∧ 500 < 501 :=
  ⟨(c10_threshold_boundary 600 0 0 500).1 (by decide),
   (c10_threshold_boundary 600 0 0 501).2 (by decide)⟩

lemma removeWrongGuesses_fst_le (g t : List Color) :
    (removeWrongGuesses g t).1 ≤ t.length := by
  induction g generalizing t with
  | nil => cases t <;> simp [removeWrongGuesses]
  | cons a gs ih =>
    cases t with
    | nil => simp [removeWrongGuesses]
    | cons b ts =>
      simp only [removeWrongGuesses, List.length_cons]
      split_ifs with h
      · have := ih ts; simp only []; omega
      · have := ih ts; simp only []; omega

lemma removeWrongGuesses_snd (g t : List Color) :
    (removeWrongGuesses g t).2
      = List.zipWith (fun a b => if a = b then a else Color.none) g t := by
  induction g generalizing t with
  | nil => cases t <;> simp [removeWrongGuesses]
  | cons a gs ih =>
    cases t with
    | nil => simp [removeWrongGuesses]
    | cons b ts =>
      by_cases hab : a = b
      · simp [removeWrongGuesses, hab, ih]
      · simp [removeWrongGuesses, hab, ih]

lemma removeWrongGuesses_fst_add_agree (g t : List Color) :
    (removeWrongGuesses g t).1 + agreeCount g t = (g.zip t).length := by
  induction g generalizing t with
  | nil => cases t <;> simp [removeWrongGuesses, agreeCount]
  | cons a gs ih =>
    cases t with
    | nil => simp [removeWrongGuesses, agreeCount]
    | cons b ts =>
      have hagree : agreeCount (a :: gs) (b :: ts)
          = (if a = b then 1 else 0) + agreeCount gs ts := by
        by_cases hab : a = b
        · simp [agreeCount, List.filter_cons, hab, Nat.add_comm]
        · simp [agreeCount, List.filter_cons, hab]
      simp only [removeWrongGuesses, hagree, List.zip_cons_cons, List.length_cons]
      have := ih ts
      by_cases hab : a = b
      · rw [if_neg (fun hne => hne hab), if_pos hab]
        simp only []
        omega
      · rw [if_pos hab, if_neg hab]
        simp only []
        omega

lemma removeWrongGuesses_self (a : List Color) : removeWrongGuesses a a = (0, a) := by
  induction a with
  | nil => rfl
  | cons x xs ih => simp [removeWrongGuesses, ih]

/-- C4: the scorer is exact positional comparison: the masked sequence is
the position-wise "keep on agreement, blank to none on disagreement" zip
of guess and target, the reported right-guess count is the number of
agreeing positions, a mismatch is blanked exactly where guess and target
disagree (for guesses without the none sentinel), and a sequence scored
against itself is fully correct and unmasked. -/
theorem c4_scoring_engine (g t : List Color) (h : g.length = t.length) :
    (removeWrongGuesses g t).2
        = List.zipWith (fun a b => if a = b then a else Color.none) g t ∧
    numRightGuesses g.length g t = agreeCount g t ∧
    (Color.none ∉ g →
      ∀ i (hg : i < g.length) (ht : i < t.length)
        (hm : i < (removeWrongGuesses g t).2.length),
        ((removeWrongGuesses g t).2.get ⟨i, hm⟩ = Color.none
          ↔ g.get ⟨i, hg⟩ ≠ t.get ⟨i, ht⟩)) ∧
    (∀ a : List Color, removeWrongGuesses a a = (0, a)) := by
  refine ⟨removeWrongGuesses_snd g t, ?_, ?_, fun a => removeWrongGuesses_self a⟩
  · have h1 := removeWrongGuesses_fst_add_agree g t
    have h2 := removeWrongGuesses_fst_le g t
    have h3 : (g.zip t).length = g.length := by
      rw [List.length_zip]; omega
    unfold numRightGuesses
    omega
  · intro hnone i hg ht hm
    have hz := removeWrongGuesses_snd g t
    simp only [List.get_eq_getElem, hz, List.getElem_zipWith]
    have hgmem : g[i] ∈ g := List.getElem_mem hg
    have hgne : g[i] ≠ Color.none := fun he => hnone (he ▸ hgmem)
    split_ifs with heq
    · exact iff_of_false hgne (not_not_intro heq)
    · exact iff_of_true rfl heq

lemma gameLoop_zero (c : List Color) (g : Nat → List Color) (i : Nat) :
    gameLoop c g i 0 = (false, i) := rfl

lemma gameLoop_succ (c : List Color) (g : Nat → List Color) (i r : Nat) :
    gameLoop c g i (r + 1)
      = if (removeWrongGuesses (g i) c).1 = 0 then (true, i + 1)
        else gameLoop c g (i + 1) r := rfl

lemma gameLoop_first_win (c : List Color) (g : Nat → List Color) :
    ∀ (r i k : Nat), i ≤ k → k < i + r →
      (removeWrongGuesses (g k) c).1 = 0 →
      (∀ j, i ≤ j → j < k → (removeWrongGuesses (g j) c).1 ≠ 0) →
      gameLoop c g i r = (true, k + 1) := by
  intro r
  induction r with
  | zero => intro i k h1 h2 _ _; omega
  | succ r ih =>
    intro i k h1 h2 hw hprev
    rw [gameLoop_succ]
    by_cases hi : (removeWrongGuesses (g i) c).1 = 0
    · have hik : k = i := by
        by_contra hne
        exact hprev i le_rfl (by omega) hi
      rw [if_pos hi, hik]
    · rw [if_neg hi]
      have hik : i ≠ k := fun he => hi (he ▸ hw)
      exact ih (i + 1) k (by omega) (by omega) hw
        (fun j hj1 hj2 => hprev j (by omega) hj2)

lemma gameLoop_all_fail (c : List Color) (g : Nat → List Color) :
    ∀ (r i : Nat),
      (∀ j, i ≤ j → j < i + r → (removeWrongGuesses (g j) c).1 ≠ 0) →
      gameLoop c g i r = (false, i + r) := by
  intro r
  induction r with
  | zero => intro i _; rw [Nat.add_zero]; exact gameLoop_zero c g i
  | succ r ih =>
    intro i hall
    rw [gameLoop_succ, if_neg (hall i le_rfl (by omega))]
    rw [ih (i + 1) (fun j h1 h2 => hall j (by omega) (by omega))]
    have : i + 1 + r = i + (r + 1) := by omega
    rw [this]

lemma getCorrectSetLoop_length (d : Nat) :
    ∀ (r num : Nat) (prev : Int), (getCorrectSetLoop d num prev r).length = r := by
  intro r
  induction r with
  | zero => intro num prev; rfl
  | succ r ih => intro num prev; simp [getCorrectSetLoop, ih]

lemma getCorrectSet_length (randVal n : Nat) :
    (getCorrectSet randVal n).length = n := by
  simp [getCorrectSet, getCorrectSetLoop_length]

/-- C5: as soon as an attempt is a perfect score, the game returns a win
at once: with attempt `k` the first one whose right-guess count equals
`numSlots`, the outcome is a win after exactly `k + 1` attempts, even
though more attempts may remain. -/
theorem c5_perfect_score_wins_immediately (level randVal k : Nat)
    (guessAt : Nat → List Color)
    (hk : k < numSlots level)
    (hwin : numRightGuesses (numSlots level) (guessAt k)
        (getCorrectSet randVal (numSlots level)) = numSlots level)
    (hbefore : ∀ j, j < k →
      numRightGuesses (numSlots level) (guessAt j)
          (getCorrectSet randVal (numSlots level)) ≠ numSlots level) :
    game level randVal guessAt = (true, k + 1) := by
  have hlen := getCorrectSet_length randVal (numSlots level)
  have hw : (removeWrongGuesses (guessAt k)
      (getCorrectSet randVal (numSlots level))).1 = 0 := by
    have hle := removeWrongGuesses_fst_le (guessAt k)
      (getCorrectSet randVal (numSlots level))
    unfold numRightGuesses at hwin
    omega
  have hprev : ∀ j, j < k → (removeWrongGuesses (guessAt j)
      (getCorrectSet randVal (numSlots level))).1 ≠ 0 := by
    intro j hj hzero
    exact hbefore j hj (by simp [numRightGuesses, hzero])
  unfold game
  exact gameLoop_first_win _ _ (numSlots level) 0 k (Nat.zero_le k) (by omega) hw
    (fun j _ hj => hprev j hj)

/-- Witness for C5: at level 1 the target for drawn value 0 is
red, green, red; guessing it exactly on the first attempt wins with a
single attempt consumed. -/
theorem c5_perfect_score_wins_immediately_witness :
    game 1 0 (fun _ => [Color.red, Color.green, Color.red]) = (true, 1) :=
  c5_perfect_score_wins_immediately 1 0 0
    (fun _ => [Color.red, Color.green, Color.red])
    (by decide) (by decide) (fun j hj => absurd hj (Nat.not_lt_zero j))

/-- C6: at level 1 (target length 3, 3 attempts), if no attempt reaches a
right-guess count of 3, the game returns a loss after exactly 3 attempts. -/
theorem c6_exhausted_attempts_lose (randVal : Nat) (guessAt : Nat → List Color)
    (h : ∀ j, j < 3 →
      numRightGuesses 3 (guessAt j) (getCorrectSet randVal 3) ≠ 3) :
    game 1 randVal guessAt = (false, 3) := by
  have h3 : numSlots 1 = 3 := rfl
  have hw : ∀ j, 0 ≤ j → j < 0 + 3 →
      (removeWrongGuesses (guessAt j) (getCorrectSet randVal 3)).1 ≠ 0 := by
    intro j _ hj hzero
    exact h j (by omega) (by simp [numRightGuesses, hzero])
  unfold game
  rw [h3]
  simpa using gameLoop_all_fail (getCorrectSet randVal 3) guessAt 3 0 hw

/-- Witness for C6: guessing green, red, green against the target
red, green, red on every attempt loses after exactly 3 attempts. -/
theorem c6_exhausted_attempts_lose_witness :
    game 1 0 (fun _ => [Color.green, Color.red, Color.green]) = (false, 3) :=
  c6_exhausted_attempts_lose 0 (fun _ => [Color.green, Color.red, Color.green])
    (by
      intro j hj
      show numRightGuesses 3 [Color.green, Color.red, Color.green]
          (getCorrectSet 0 3) ≠ 3
      decide)

/-- Witness for C4 on a concrete pair of length-2 sequences. -/
theorem c4_scoring_engine_witness :
    (removeWrongGuesses [Color.red, Color.green] [Color.red, Color.blue]).2
        = List.zipWith (fun a b => if a = b then a else Color.none)
            [Color.red, Color.green] [Color.red, Color.blue] ∧
    numRightGuesses 2 [Color.red, Color.green] [Color.red, Color.blue]
        = agreeCount [Color.red, Color.green] [Color.red, Color.blue] :=
  ⟨(c4_scoring_engine [Color.red, Color.green] [Color.red, Color.blue] rfl).1,
   (c4_scoring_engine [Color.red, Color.green] [Color.red, Color.blue] rfl).2.1⟩

lemma colorOfNat_ne_none (a : Nat) (h1 : 1 ≤ a) (h2 : a ≤ 3) :
    colorOfNat a ≠ Color.none := by
  interval_cases a <;> decide

lemma colorOfNat_ne (a b : Nat) (ha1 : 1 ≤ a) (ha2 : a ≤ 3) (hb1 : 1 ≤ b)
    (hb2 : b ≤ 3) (hne : a ≠ b) : colorOfNat a ≠ colorOfNat b := by
  interval_cases a <;> interval_cases b <;> revert hne <;> decide

lemma getCorrectSetLoop_invariant (d : Nat) :
    ∀ (r num : Nat) (prev : Int),
      (∀ x ∈ getCorrectSetLoop d num prev r, 1 ≤ x ∧ x ≤ 3) ∧
      (∀ x, (getCorrectSetLoop d num prev r).head? = some x → (x : Int) ≠ prev) ∧
      List.Chain' (fun a b => 1 ≤ a ∧ a ≤ 3 ∧ 1 ≤ b ∧ b ≤ 3 ∧ a ≠ b)
        (getCorrectSetLoop d num prev r) := by
  intro r
  induction r with
  | zero =>
    intro num prev
    exact ⟨by simp [getCorrectSetLoop], by simp [getCorrectSetLoop],
      by simp [getCorrectSetLoop]⟩
  | succ r ih =>
    intro num prev
    set digit0 : Nat := num % 3 + 1 with hd0
    set digit : Nat :=
      if (digit0 : Int) = prev then
        if digit0 ≠ 3 then digit0 + 1 else 1
      else digit0 with hd
    have hunfold : getCorrectSetLoop d num prev (r + 1)
        = digit :: getCorrectSetLoop d (num / d) (digit : Int) r := rfl
    have hb0 : 1 ≤ digit0 ∧ digit0 ≤ 3 := by
      constructor <;> omega
    have hbd : 1 ≤ digit ∧ digit ≤ 3 := by
      rw [hd]
      split_ifs <;> omega
    have hne_prev : (digit : Int) ≠ prev := by
      rw [hd]
      split_ifs with h1 h2
      · rw [← h1]
        push_cast
        omega
      · rw [← h1]
        have h3 : digit0 = 3 := by omega
        rw [h3]
        decide
      · exact h1
    obtain ⟨ihmem, ihhead, ihchain⟩ := ih (num / d) (digit : Int)
    rw [hunfold]
    refine ⟨?_, ?_, ?_⟩
    · intro x hx
      rcases List.mem_cons.mp hx with hx | hx
      · rw [hx]; exact hbd
      · exact ihmem x hx
    · intro x hx
      rw [List.head?_cons, Option.some_inj] at hx
      exact hx ▸ hne_prev
    · refine List.chain'_cons'.mpr ⟨?_, ihchain⟩
      intro y hy
      rw [Option.mem_def] at hy
      have hymem := ihmem y (List.mem_of_mem_head? hy)
      have hyne : digit ≠ y := by
        intro he
        exact ihhead y hy (by rw [he])
      exact ⟨hbd.1, hbd.2, hymem.1, hymem.2, hyne⟩

/-- C8: for every length and drawn value, the generated target has exactly
that many symbols, contains no `none`, and never repeats a symbol in two
adjacent slots. -/
theorem c8_target_well_formed (randVal length : Nat) (hlen : 1 ≤ length) :
    (getCorrectSet randVal length).length = length ∧
    (∀ c ∈ getCorrectSet randVal length, c ≠ Color.none) ∧
    List.Chain' (fun a b => a ≠ b) (getCorrectSet randVal length) := by
  obtain ⟨hmem, -, hchain⟩ :=
    getCorrectSetLoop_invariant length length (randVal % 3 ^ length) (-1)
  refine ⟨getCorrectSet_length randVal length, ?_, ?_⟩
  · intro c hc
    rw [getCorrectSet] at hc
    obtain ⟨a, ha, rfl⟩ := List.mem_map.mp hc
    exact colorOfNat_ne_none a (hmem a ha).1 (hmem a ha).2
  · rw [getCorrectSet]
    exact List.chain'_map_of_chain' colorOfNat
      (fun a b hab =>
        colorOfNat_ne a b hab.1 hab.2.1 hab.2.2.1 hab.2.2.2.1 hab.2.2.2.2)
      hchain

/-- Witness for C8 at length 3 and drawn value 0. -/
theorem c8_target_well_formed_witness :
    (getCorrectSet 0 3).length = 3 ∧
    (∀ c ∈ getCorrectSet 0 3, c ≠ Color.none) ∧
    List.Chain' (fun a b => a ≠ b) (getCorrectSet 0 3) :=
  c8_target_well_formed 0 3 (by decide)
